import Mathlib

/-
  Verification of the DirectoryFileTrees repository (src/3FT/ft.c,
  src/3FT/nodeFT.c, src/unnamed/part_000 = checkerDT.c) against its
  natural-language specification.

  Shallow embedding conventions:
  * The external Path component (path.h / path.c, out of scope per spec
    section 1) is modelled from the spec: a path is its sequence of
    components (`List String`); depth is the length; Path_comparePath
    returns 0 exactly on equal path strings, which for parsed component
    sequences is equality of the component lists; the lexicographic
    ordering used for sorting compares the joined path strings.
  * Allocation (malloc / DynArray growth / Path_copy) is modelled as
    succeeding; MEMORY_ERROR branches of the C code are therefore not
    taken in the model.
  * `Path_create` failure on a malformed string is outside the model:
    operations take the already-parsed component sequence, and the
    depth-0 checks of the C code cover the empty path.
  * Pointers that may be NULL are modelled as `Option`.
-/

/-- Modelled from the spec: a Path is an absolute sequence of components;
depth = number of components. -/
abbrev FTPath := List String

/-- Modelled from the spec: Path_toString, the slash-joined path string. -/
def pathStr (p : FTPath) : String := String.intercalate "/" p

/-- Modelled from the spec: Path_comparePath / Path_compare equal-to-zero
test, i.e. equality of path strings; on parsed component sequences this is
equality of the component lists. -/
def pathEqb (a b : FTPath) : Bool := a == b

/-- Modelled from the spec: strict ascending lexicographic order on path
strings (Path_comparePath < 0). -/
def pathLtb (a b : FTPath) : Bool := decide (pathStr a < pathStr b)

/-- NodeType from nodeFT.h: a node is a directory or a file. -/
inductive NodeType where
  | dir
  | file
deriving DecidableEq, Repr

/-- struct node from nodeFT.c: path, type, contents (char*, NULL for
directories, modelled as `Option String`), and the children dynarray
(NULL for files, modelled as the empty list).  The parent back-pointer is
implicit in the functional tree. -/
inductive Node where
  | mk (path : FTPath) (etype : NodeType) (contents : Option String)
       (children : List Node)
deriving Repr

def Node.path : Node → FTPath
  | .mk p _ _ _ => p

def Node.etype : Node → NodeType
  | .mk _ t _ _ => t

def Node.contents : Node → Option String
  | .mk _ _ c _ => c

def Node.children : Node → List Node
  | .mk _ _ _ cs => cs

mutual

/-- Number of nodes in the subtree (root included), as counted by
Node_free in nodeFT.c. -/
def Node.size : Node → Nat
  | .mk _ _ _ cs => Node.sizeList cs + 1

def Node.sizeList : List Node → Nat
  | [] => 0
  | c :: cs => Node.size c + Node.sizeList cs

end

/-- Error and success codes from a4def.h, as used by ft.c / nodeFT.c. -/
inductive FTRet where
  | success
  | initializationError
  | badPath
  | conflictingPath
  | noSuchPath
  | notADirectory
  | notAFile
  | alreadyInTree
  | memoryError
deriving DecidableEq, Repr

/-- Node_hasChild (nodeFT.c): linear scan of the children for a path
comparing equal (Path_compare == 0). -/
def Node_hasChild (n : Node) (p : FTPath) : Bool :=
  n.children.any (fun c => pathEqb c.path p)

/-- Fresh node as built by Node_new (nodeFT.c): a directory gets an empty
children dynarray and NULL contents; a file gets NULL children and a
calloc'd empty string as contents. -/
def Node.mkNew (p : FTPath) (ty : NodeType) : Node :=
  match ty with
  | .dir => .mk p .dir none []
  | .file => .mk p .file (some "") []

/-- Node_new (nodeFT.c): validates depth, parent/child depth relation,
parent-path-as-ancestor, and sibling uniqueness, then allocates the node.
It does NOT link the node into the parent's children (the caller does). -/
def Node_new (p : FTPath) (par : Option Node) (ty : NodeType) :
    Except FTRet Node :=
  if p.length = 0 then .error .noSuchPath
  else
    match par with
    | none =>
      if p.length ≠ 1 then .error .noSuchPath
      else .ok (Node.mkNew p ty)
    | some q =>
      if p.length ≠ q.path.length + 1 then .error .noSuchPath
      else if !(q.path.isPrefixOf p) then .error .conflictingPath
      else if Node_hasChild q p then .error .alreadyInTree
      else .ok (Node.mkNew p ty)

/-- Node_setContents (nodeFT.c): only file nodes are updated (the C
function returns 0 and leaves the node alone for a directory); a NULL
argument is stored as the empty string; allocation is modelled as
succeeding, so the swap always commits for a file. -/
def Node_setContents (n : Node) (pc : Option String) : Node :=
  match n with
  | .mk p t c cs =>
    if t = NodeType.file then .mk p t (some (pc.getD "")) cs
    else .mk p t c cs

/-- Node_getContents (nodeFT.c): contents of a file node, NULL for a
directory. -/
def Node_getContents (n : Node) : Option String :=
  if n.etype = NodeType.file then n.contents else none

/-- FT state (ft.c): the static bIsInitialized flag and the static oRoot
pointer. -/
structure FTState where
  isInit : Bool
  root : Option Node
deriving Repr

/-- The inner scan shared by every ft.c traversal loop: walk the current
node's children by index, returning the first child whose path compares
equal (Path_comparePath == 0) to the sought path. -/
def findChild (cs : List Node) (q : FTPath) : Option Node :=
  cs.find? (fun c => pathEqb c.path q)

/-- Level counters for the ft.c for-loops: the list lo, lo+1, ...,
lo+cnt-1, where cnt is the number of iterations the loop performs. -/
def levelRange (lo : Nat) : Nat → List Nat
  | 0 => []
  | cnt + 1 => lo :: levelRange (lo + 1) cnt

/-- The pure-lookup traversal of ft.c (FT_containsDir, FT_containsFile,
FT_getFileContents, FT_replaceFileContents, FT_stat): for each level i,
compute the depth-i prefix of the target and scan the current node's
children for it; fail if absent, descend if found.  Note the loops start
at i = 1 with the current node already at the root, so the depth-1 prefix
is sought among the root's children.  Descending into a file is a failed
assertion in C (Node_getNumChildren asserts a directory); it is modelled
as scanning the file's empty children list. -/
def walkLookup (t : FTPath) : List Nat → Node → Option Node
  | [], cur => some cur
  | i :: rest, cur =>
    match findChild cur.children (t.take i) with
    | none => none
    | some c => walkLookup t rest c

/-- In-place update of the child found by the scan: replace the first
child whose path compares equal to q. -/
def setFirstMatch (cs : List Node) (q : FTPath) (c' : Node) : List Node :=
  match cs with
  | [] => []
  | c :: rest =>
    if pathEqb c.path q then c' :: rest else c :: setFirstMatch rest q c'

/-- Steps 3-5 of FT_insertDir (ft.c): walk levels 1..depth-1 scanning the
current children for each prefix (NO_SUCH_PATH if absent, NOT_A_DIRECTORY
if the match is a file), then at the final node check ALREADY_IN_TREE
among its children, create the node with Node_new, and link it with
DynArray_add, which appends at the end of the children array. -/
def FT_insertDirWalk (t : FTPath) : List Nat → Node → Except FTRet Node
  | [], cur =>
    if Node_hasChild cur t then .error .alreadyInTree
    else
      match Node_new t (some cur) .dir with
      | .error e => .error e
      | .ok newN =>
        .ok (Node.mk cur.path cur.etype cur.contents (cur.children ++ [newN]))
  | i :: rest, cur =>
    match findChild cur.children (t.take i) with
    | none => .error .noSuchPath
    | some c =>
      if c.etype = NodeType.file then .error .notADirectory
      else
        match FT_insertDirWalk t rest c with
        | .error e => .error e
        | .ok c' =>
          .ok (Node.mk cur.path cur.etype cur.contents
                (setFirstMatch cur.children (t.take i) c'))

/-- FT_insertDir (ft.c). -/
def FT_insertDir (s : FTState) (p : FTPath) : FTRet × FTState :=
  if !s.isInit then (.initializationError, s)
  else if p.length = 0 then (.badPath, s)
  else
    match s.root with
    | none =>
      if p.length ≠ 1 then (.conflictingPath, s)
      else
        match Node_new p none .dir with
        | .error e => (e, s)
        | .ok r => (.success, { s with root := some r })
    | some r =>
      match FT_insertDirWalk p (levelRange 1 (p.length - 1)) r with
      | .error e => (e, s)
      | .ok r' => (.success, { s with root := some r' })

/-- Steps 3-7 of FT_insertFile (ft.c): like the insertDir walk, but a
missing prefix yields CONFLICTING_PATH, and after Node_new the contents
are installed: the byte buffer is copied and stored via Node_setContents
when ulLength > 0 and pvContents is non-NULL, otherwise
Node_setContents(node, NULL) stores the empty string. -/
def FT_insertFileWalk (t : FTPath) (pv : Option String) (len : Nat) :
    List Nat → Node → Except FTRet Node
  | [], cur =>
    if Node_hasChild cur t then .error .alreadyInTree
    else
      match Node_new t (some cur) .file with
      | .error e => .error e
      | .ok newN0 =>
        let newN := Node_setContents newN0
          (if 0 < len ∧ pv.isSome then pv else none)
        .ok (Node.mk cur.path cur.etype cur.contents (cur.children ++ [newN]))
  | i :: rest, cur =>
    match findChild cur.children (t.take i) with
    | none => .error .conflictingPath
    | some c =>
      if c.etype = NodeType.file then .error .notADirectory
      else
        match FT_insertFileWalk t pv len rest c with
        | .error e => .error e
        | .ok c' =>
          .ok (Node.mk cur.path cur.etype cur.contents
                (setFirstMatch cur.children (t.take i) c'))

/-- FT_insertFile (ft.c): a depth-1 insertion into an empty tree is
CONFLICTING_PATH; on an empty tree the depth-1 root directory is first
materialized (and, in the C code, is NOT undone when a later step
fails -- the global oRoot keeps the new node). -/
def FT_insertFile (s : FTState) (p : FTPath) (pv : Option String)
    (len : Nat) : FTRet × FTState :=
  if !s.isInit then (.initializationError, s)
  else if p.length = 0 then (.badPath, s)
  else
    match s.root with
    | none =>
      if p.length = 1 then (.conflictingPath, s)
      else
        match Node_new (p.take 1) none .dir with
        | .error e => (e, s)
        | .ok r =>
          match FT_insertFileWalk p pv len (levelRange 1 (p.length - 1)) r with
          | .error e => (e, { s with root := some r })
          | .ok r' => (.success, { s with root := some r' })
    | some r =>
      match FT_insertFileWalk p pv len (levelRange 1 (p.length - 1)) r with
      | .error e => (e, s)
      | .ok r' => (.success, { s with root := some r' })

/-- FT_containsDir (ft.c): traverse levels 1..depth, then test that the
reached node is a directory; all failures collapse to FALSE. -/
def FT_containsDir (s : FTState) (p : FTPath) : Bool :=
  if !s.isInit then false
  else if p.length = 0 then false
  else
    match s.root with
    | none => false
    | some r =>
      match walkLookup p (levelRange 1 p.length) r with
      | none => false
      | some n => n.etype = NodeType.dir

/-- FT_containsFile (ft.c). -/
def FT_containsFile (s : FTState) (p : FTPath) : Bool :=
  if !s.isInit then false
  else if p.length = 0 then false
  else
    match s.root with
    | none => false
    | some r =>
      match walkLookup p (levelRange 1 p.length) r with
      | none => false
      | some n => n.etype = NodeType.file

/-- Unlink the first child whose path compares equal to q (DynArray_removeAt
at the index where the pointer scan finds the removed node). -/
def removeFirstMatch (cs : List Node) (q : FTPath) : List Node :=
  match cs with
  | [] => []
  | c :: rest =>
    if pathEqb c.path q then rest else c :: removeFirstMatch rest q

/-- Steps 3-6 of FT_rmDir / FT_rmFile (ft.c): walk levels 1..depth; at the
final level the matched child is the node to remove; check its kind, then
unlink it from the parent's children (the C code removes by pointer
equality the node the scan just found, i.e. the first path match). -/
def FT_rmWalk (want : NodeType) (wrongKind : FTRet) (t : FTPath) :
    List Nat → Node → Except FTRet Node
  | [], _ => .error .noSuchPath
  | [i], cur =>
    match findChild cur.children (t.take i) with
    | none => .error .noSuchPath
    | some tgt =>
      if tgt.etype ≠ want then .error wrongKind
      else
        .ok (Node.mk cur.path cur.etype cur.contents
              (removeFirstMatch cur.children (t.take i)))
  | i :: rest, cur =>
    match findChild cur.children (t.take i) with
    | none => .error .noSuchPath
    | some c =>
      match FT_rmWalk want wrongKind t rest c with
      | .error e => .error e
      | .ok c' =>
        .ok (Node.mk cur.path cur.etype cur.contents
              (setFirstMatch cur.children (t.take i) c'))

/-- FT_rmDir (ft.c): root deletion is the special case compared by path
against the root directly; otherwise the traversal walks levels 1..depth. -/
def FT_rmDir (s : FTState) (p : FTPath) : FTRet × FTState :=
  if !s.isInit then (.initializationError, s)
  else if p.length = 0 then (.badPath, s)
  else
    match s.root with
    | none => (.noSuchPath, s)
    | some r =>
      if pathEqb r.path p then
        if r.etype ≠ NodeType.dir then (.notADirectory, s)
        else (.success, { s with root := none })
      else
        match FT_rmWalk .dir .notADirectory p (levelRange 1 p.length) r with
        | .error e => (e, s)
        | .ok r' => (.success, { s with root := some r' })

/-- FT_rmFile (ft.c): removing the root via rmFile is NOT_A_FILE if the
root is a file, CONFLICTING_PATH if it is a directory. -/
def FT_rmFile (s : FTState) (p : FTPath) : FTRet × FTState :=
  if !s.isInit then (.initializationError, s)
  else if p.length = 0 then (.badPath, s)
  else
    match s.root with
    | none => (.noSuchPath, s)
    | some r =>
      if pathEqb r.path p then
        if r.etype = NodeType.file then (.notAFile, s)
        else (.conflictingPath, s)
      else
        match FT_rmWalk .file .notAFile p (levelRange 1 p.length) r with
        | .error e => (e, s)
        | .ok r' => (.success, { s with root := some r' })

/-- FT_getFileContents (ft.c): NULL on any failure; otherwise the reached
node must be a file and its contents pointer is returned. -/
def FT_getFileContents (s : FTState) (p : FTPath) : Option String :=
  if !s.isInit then none
  else if p.length = 0 then none
  else
    match s.root with
    | none => none
    | some r =>
      match walkLookup p (levelRange 1 p.length) r with
      | none => none
      | some n =>
        if n.etype ≠ NodeType.file then none
        else n.contents

/-- Steps of FT_replaceFileContents after the traversal, rebuilt along the
walk: at the target (which must be a file) the old contents pointer is
saved, Node_setContents installs the new buffer (NULL when ulNewLength = 0
or pvNewContents is NULL, stored as the empty string), and the old
contents are returned to the caller. -/
def FT_replaceWalk (newC : Option String) (t : FTPath) :
    List Nat → Node → Option (Node × Option String)
  | [], cur =>
    if cur.etype ≠ NodeType.file then none
    else some (Node_setContents cur newC, cur.contents)
  | i :: rest, cur =>
    match findChild cur.children (t.take i) with
    | none => none
    | some c =>
      match FT_replaceWalk newC t rest c with
      | none => none
      | some (c', old) =>
        some (Node.mk cur.path cur.etype cur.contents
                (setFirstMatch cur.children (t.take i) c'), old)

/-- FT_replaceFileContents (ft.c): returns the previous contents pointer on
success and NULL on any failure, leaving the state unchanged in that case. -/
def FT_replaceFileContents (s : FTState) (p : FTPath) (pv : Option String)
    (len : Nat) : Option String × FTState :=
  if !s.isInit then (none, s)
  else if p.length = 0 then (none, s)
  else
    match s.root with
    | none => (none, s)
    | some r =>
      match FT_replaceWalk (if 0 < len ∧ pv.isSome then pv else none) p
          (levelRange 1 p.length) r with
      | none => (none, s)
      | some (r', old) => (some (old.getD ""), { s with root := some r' })

/-- FT_stat (ft.c): the two output parameters are modelled as `Option`
results, `none` meaning the C code left the caller's variable unmodified.
For a file, *pulSize is strlen of the contents (0 for a NULL pointer);
for a directory only *pbIsFile is written. -/
def FT_stat (s : FTState) (p : FTPath) :
    FTRet × Option Bool × Option Nat :=
  if !s.isInit then (.initializationError, none, none)
  else if p.length = 0 then (.badPath, none, none)
  else
    match s.root with
    | none => (.noSuchPath, none, none)
    | some r =>
      if !(r.path.isPrefixOf p) then (.conflictingPath, none, none)
      else
        match walkLookup p (levelRange 1 p.length) r with
        | none => (.noSuchPath, none, none)
        | some n =>
          if n.etype = NodeType.file then
            (.success, some true,
             some (match n.contents with
                   | some c => c.length
                   | none => 0))
          else (.success, some false, none)

/-- FT_init (ft.c). -/
def FT_init (s : FTState) : FTRet × FTState :=
  if s.isInit then (.initializationError, s)
  else (.success, { isInit := true, root := none })

/-- FT_destroy (ft.c). -/
def FT_destroy (s : FTState) : FTRet × FTState :=
  if !s.isInit then (.initializationError, s)
  else (.success, { isInit := false, root := none })

theorem Node.size_pos (n : Node) : 1 ≤ Node.size n := by
  cases n with
  | mk p t c cs => simp [Node.size]

theorem Node.sizeList_filter_le (f : Node → Bool) (cs : List Node) :
    Node.sizeList (List.filter f cs) ≤ Node.sizeList cs := by
  induction cs with
  | nil => simp [Node.sizeList]
  | cons c rest ih =>
    by_cases h : f c
    · simp only [List.filter, h, Node.sizeList]
      omega
    · simp only [List.filter, Bool.not_eq_true] at h ⊢
      rw [h]
      simp only [Node.sizeList]
      have := Node.size_pos c
      omega

/-- Insertion into a sorted child list, used to model qsort with the
Node_compare comparator (ascending lexicographic path order). -/
def insertByPath (c : Node) : List Node → List Node
  | [] => [c]
  | d :: ds =>
    if pathLtb c.path d.path then c :: d :: ds else d :: insertByPath c ds

/-- Model of qsort(…, compareNodes) in ft.c: sort a child list ascending by
path (Node_compare delegates to the lexicographic path comparison). -/
def sortNodes : List Node → List Node
  | [] => []
  | c :: cs => insertByPath c (sortNodes cs)

theorem Node.sizeList_insertByPath (c : Node) (l : List Node) :
    Node.sizeList (insertByPath c l) = Node.size c + Node.sizeList l := by
  induction l with
  | nil => simp [insertByPath, Node.sizeList]
  | cons d ds ih =>
    by_cases h : pathLtb c.path d.path
    · simp [insertByPath, h, Node.sizeList]
    · simp only [insertByPath, h, if_false, Node.sizeList, ih]
      omega

theorem Node.sizeList_sortNodes (l : List Node) :
    Node.sizeList (sortNodes l) = Node.sizeList l := by
  induction l with
  | nil => rfl
  | cons c cs ih =>
    simp only [sortNodes, Node.sizeList_insertByPath, ih, Node.sizeList]

/-- Node_toString (nodeFT.c): sprintf("%s [%s]", path, "file"|"dir"). -/
def Node_toString (n : Node) : String :=
  pathStr n.path ++ (if n.etype = NodeType.file then " [file]" else " [dir]")

mutual

/-- FT_traverseToString (ft.c), collecting the oLines dynarray: emit this
node's line, split the children into file children and non-file children,
qsort each group by path, then recurse into the file group first and the
directory group second. -/
def FT_traverseToString : Node → List String
  | .mk p t co cs =>
    Node_toString (.mk p t co cs) ::
      (FT_traverseList
        (sortNodes (List.filter (fun c => c.etype == NodeType.file) cs)) ++
       FT_traverseList
        (sortNodes (List.filter (fun c => !(c.etype == NodeType.file)) cs)))
termination_by n => 2 * Node.size n
decreasing_by
· rename_i p t co cs
  have h : Node.sizeList
      (sortNodes (List.filter (fun c => c.etype == NodeType.file) cs)) ≤
      Node.sizeList cs :=
    (Node.sizeList_sortNodes _).le.trans (Node.sizeList_filter_le _ _)
  simp only [Node.size]
  omega
· rename_i p t co cs
  have h : Node.sizeList
      (sortNodes (List.filter (fun c => !(c.etype == NodeType.file)) cs)) ≤
      Node.sizeList cs :=
    (Node.sizeList_sortNodes _).le.trans (Node.sizeList_filter_le _ _)
  simp only [Node.size]
  omega

def FT_traverseList : List Node → List String
  | [] => []
  | c :: cs => FT_traverseToString c ++ FT_traverseList cs
termination_by l => 2 * Node.sizeList l + 1
decreasing_by
· simp only [Node.sizeList]
  omega
· have := Node.size_pos c
  simp only [Node.sizeList]
  omega

end

/-- The string-building loop of FT_toString (ft.c): strcat each line
followed by a newline, in order. -/
def joinLines : List String → String
  | [] => ""
  | l :: ls => l ++ "\n" ++ joinLines ls

/-- FT_toString (ft.c): NULL if uninitialized or empty, else the joined
line list of the depth-first traversal. -/
def FT_toString (s : FTState) : Option String :=
  if !s.isInit then none
  else
    match s.root with
    | none => none
    | some r => some (joinLines (FT_traverseToString r))

/-- Modelled from the spec (claim C8 wording): one line per visited node,
of the form "<path-string> [file]" or "<path-string> [dir]". -/
def specLine (n : Node) : String :=
  pathStr n.path ++ (if n.etype = NodeType.file then " [file]" else " [dir]")

mutual

/-- Modelled from the spec (claim C8 wording): depth-first pre-order
serialization; at each node, partition the children into the file subset
and the directory subset, sort each subset ascending lexicographically by
path, and emit (and recurse into) the file subset before the directory
subset. -/
def specLines : Node → List String
  | .mk p t co cs =>
    specLine (.mk p t co cs) ::
      (specLinesList (sortNodes
          (List.partition (fun c => c.etype == NodeType.file) cs).1) ++
       specLinesList (sortNodes
          (List.partition (fun c => c.etype == NodeType.file) cs).2))
termination_by n => 2 * Node.size n
decreasing_by
· rename_i p t co cs
  have h : Node.sizeList
      (sortNodes (List.partition (fun c => c.etype == NodeType.file) cs).1) ≤
      Node.sizeList cs := by
    rw [List.partition_eq_filter_filter]
    exact (Node.sizeList_sortNodes _).le.trans (Node.sizeList_filter_le _ _)
  simp only [Node.size]
  omega
· rename_i p t co cs
  have h : Node.sizeList
      (sortNodes (List.partition (fun c => c.etype == NodeType.file) cs).2) ≤
      Node.sizeList cs := by
    rw [List.partition_eq_filter_filter]
    exact (Node.sizeList_sortNodes _).le.trans (Node.sizeList_filter_le _ _)
  simp only [Node.size]
  omega

def specLinesList : List Node → List String
  | [] => []
  | c :: cs => specLines c ++ specLinesList cs
termination_by l => 2 * Node.sizeList l + 1
decreasing_by
· simp only [Node.sizeList]
  omega
· have := Node.size_pos c
  simp only [Node.sizeList]
  omega

end

/-- Modelled from the spec: Path_getSharedPrefixDepth, the length of the
longest common component prefix of two paths. -/
def sharedPfxDepth : FTPath → FTPath → Nat
  | a :: as, b :: bs => if a = b then sharedPfxDepth as bs + 1 else 0
  | _, _ => 0

/-- size_t subtraction n - 1 as computed for the order-loop bound in
checkerDT.c: unsigned 64-bit arithmetic, so 0 - 1 wraps to 2^64 - 1. -/
def sizetSub1 (n : Nat) : Nat := (n + 2 ^ 64 - 1) % 2 ^ 64

/-- The duplicate-children scan of CheckerDT_Node_isValid: any pair
i < j whose paths compare equal (Path_comparePath == 0) fails. -/
def dupFree : List Node → Bool
  | [] => true
  | c :: cs => cs.all (fun d => !(pathEqb c.path d.path)) && dupFree cs

/-- One iteration of the lexicographic-order loop in
CheckerDT_Node_isValid: fetch children i and i+1 (a failed fetch fails
the whole check) and require Path_comparePath(child i, child i+1) <= 0. -/
def checkOrderAt (cs : List Node) (i : Nat) : Bool :=
  match cs.get? i, cs.get? (i + 1) with
  | some a, some b => !(pathLtb b.path a.path)
  | _, _ => false

/-- The order loop body: fuel is the number of remaining iterations,
i.e. bound - i for the C loop "for (i = 0; i < bound; i++)". -/
def orderLoopGo (cs : List Node) (i : Nat) : Nat → Bool
  | 0 => true
  | fuel + 1 => checkOrderAt cs i && orderLoopGo cs (i + 1) fuel

/-- The lexicographic-order loop of CheckerDT_Node_isValid, running i
from 0 while i < bnd. -/
def orderLoop (cs : List Node) (bnd : Nat) : Bool := orderLoopGo cs 0 bnd

/-- CheckerDT_Node_isValid (src/unnamed/part_000).  The NULL checks on the
node and its path always pass in the functional model; so does the
child-fetch loop with its parent back-reference comparison (children are
fetchable by index and their recorded parent is the holding node by
construction here).  The parent check requires
Path_getSharedPrefixDepth(node path, parent path) == depth(node) - 1,
and the order loop's bound is the size_t value numChildren - 1. -/
def CheckerDT_Node_isValid (parentPath : Option FTPath) (n : Node) : Bool :=
  (match parentPath with
   | none => true
   | some q => sharedPfxDepth n.path q == n.path.length - 1) &&
  dupFree n.children &&
  orderLoop n.children (sizetSub1 n.children.length)

mutual

/-- CheckerDT_treeCheck (src/unnamed/part_000): pre-order descent applying
the per-node validation and accumulating a visited-node count; `none`
models returning FALSE. -/
def CheckerDT_treeCheck (parentPath : Option FTPath) :
    Node → Nat → Option Nat
  | .mk p t co cs, cnt =>
    if CheckerDT_Node_isValid parentPath (.mk p t co cs) then
      CheckerDT_treeCheckList p cs (cnt + 1)
    else none
termination_by n _ => 2 * Node.size n
decreasing_by
· simp only [Node.size]
  omega

def CheckerDT_treeCheckList (parentPath : FTPath) :
    List Node → Nat → Option Nat
  | [], cnt => some cnt
  | c :: cs, cnt =>
    match CheckerDT_treeCheck (some parentPath) c cnt with
    | none => none
    | some cnt' => CheckerDT_treeCheckList parentPath cs cnt'
termination_by l _ => 2 * Node.sizeList l + 1
decreasing_by
· simp only [Node.sizeList]
  omega
· have := Node.size_pos c
  simp only [Node.sizeList]
  omega

end

/-- CheckerDT_isValid (src/unnamed/part_000). -/
def CheckerDT_isValid (isInit : Bool) (root : Option Node)
    (count : Nat) : Bool :=
  if !isInit then
    if count ≠ 0 then false
    else if root.isSome then false
    else true
  else if count == 0 && root.isSome then false
  else if decide (0 < count) && root.isNone then false
  else
    match root with
    | none => 0 == count
    | some r =>
      match CheckerDT_treeCheck none r 0 with
      | none => false
      | some c => c == count

/-- The mutating operations of the FT public surface, for stating which
states are reachable (claims C5, C10). -/
inductive FTOp where
  | opInit
  | opDestroy
  | opInsertDir (p : FTPath)
  | opInsertFile (p : FTPath) (pv : Option String) (len : Nat)
  | opRmDir (p : FTPath)
  | opRmFile (p : FTPath)
  | opReplace (p : FTPath) (pv : Option String) (len : Nat)

def applyOp (s : FTState) : FTOp → FTState
  | .opInit => (FT_init s).2
  | .opDestroy => (FT_destroy s).2
  | .opInsertDir p => (FT_insertDir s p).2
  | .opInsertFile p pv len => (FT_insertFile s p pv len).2
  | .opRmDir p => (FT_rmDir s p).2
  | .opRmFile p => (FT_rmFile s p).2
  | .opReplace p pv len => (FT_replaceFileContents s p pv len).2

/-- The process starts uninitialized with a NULL root. -/
def initialState : FTState := ⟨false, none⟩

/-- State after running a sequence of FT operations from process start. -/
def runOps (ops : List FTOp) : FTState := ops.foldl applyOp initialState

mutual

/-- Depth well-formedness: every child's path is exactly one component
longer than its parent's, as Node_new enforces for every node the tree
operations create. -/
def wfDepth : Node → Bool
  | .mk p _ _ cs => wfDepthList p cs
termination_by n => 2 * Node.size n
decreasing_by
· simp only [Node.size]
  omega

def wfDepthList (p : FTPath) : List Node → Bool
  | [] => true
  | c :: cs =>
    (c.path.length == p.length + 1) && wfDepth c && wfDepthList p cs
termination_by l => 2 * Node.sizeList l + 1
decreasing_by
· simp only [Node.sizeList]
  omega
· have := Node.size_pos c
  simp only [Node.sizeList]
  omega

end

mutual

/-- Paths of all directory nodes in a subtree (used to state that a
required intermediate directory is absent, claim C2). -/
def dirPaths : Node → List FTPath
  | .mk p t _ cs =>
    (if t = NodeType.dir then [p] else []) ++ dirPathsList cs
termination_by n => 2 * Node.size n
decreasing_by
· simp only [Node.size]
  omega

def dirPathsList : List Node → List FTPath
  | [] => []
  | c :: cs => dirPaths c ++ dirPathsList cs
termination_by l => 2 * Node.sizeList l + 1
decreasing_by
· simp only [Node.sizeList]
  omega
· have := Node.size_pos c
  simp only [Node.sizeList]
  omega

end

mutual

/-- Every file node in the subtree has a non-NULL contents pointer
(claim C10 invariant). -/
def filesOk : Node → Bool
  | .mk _ t co cs =>
    (if t = NodeType.file then co.isSome else true) && filesOkList cs
termination_by n => 2 * Node.size n
decreasing_by
· simp only [Node.size]
  omega

def filesOkList : List Node → Bool
  | [] => true
  | c :: cs => filesOk c && filesOkList cs
termination_by l => 2 * Node.sizeList l + 1
decreasing_by
· simp only [Node.sizeList]
  omega
· have := Node.size_pos c
  simp only [Node.sizeList]
  omega

end

/-- Every file node of the tree state has a non-NULL contents pointer. -/
def stateFilesOk (s : FTState) : Bool :=
  match s.root with
  | none => true
  | some r => filesOk r

/-- Strictly ascending lexicographic order (by path string) along a child
list. -/
def ascChain : List Node → Bool
  | [] => true
  | [_] => true
  | a :: b :: rest => pathLtb a.path b.path && ascChain (b :: rest)

mutual

/-- Claim C5 invariant: at every directory of the subtree, the children
are pairwise distinct and in strictly ascending lexicographic order by
path. -/
def sortedDistinct : Node → Bool
  | .mk _ _ _ cs => ascChain cs && dupFree cs && sortedDistinctList cs
termination_by n => 2 * Node.size n
decreasing_by
· simp only [Node.size]
  omega

def sortedDistinctList : List Node → Bool
  | [] => true
  | c :: cs => sortedDistinct c && sortedDistinctList cs
termination_by l => 2 * Node.sizeList l + 1
decreasing_by
· simp only [Node.sizeList]
  omega
· have := Node.size_pos c
  simp only [Node.sizeList]
  omega

end

/-- The lookup FT_getFileContents performs before returning contents: the
shared ft.c traversal reaching a node of file kind at the full path (the
code's own notion of locating a file at the path, claim C10). -/
def FT_locateFile (s : FTState) (p : FTPath) : Option Node :=
  if !s.isInit then none
  else if p.length = 0 then none
  else
    match s.root with
    | none => none
    | some r =>
      match walkLookup p (levelRange 1 p.length) r with
      | none => none
      | some n => if n.etype = NodeType.file then some n else none

/-- A childless depth-1 root directory, the only non-empty tree shape the
FT operations can actually reach (see loneRootInv_runOps). -/
def mkLone (a : String) : Node := Node.mk [a] NodeType.dir none []

/-- Invariant characterizing the reachable tree states: the root is absent
or a single childless depth-1 directory. -/
def loneRootInv (s : FTState) : Prop :=
  s.root = none ∨ ∃ a : String, s.root = some (mkLone a)

/-- C1: the FT claims that after a successful FT_insertDir(P),
FT_containsDir(P) is TRUE and FT_containsFile(P) is FALSE.  On the real
code, FT_insertDir("a") on a fresh tree succeeds, but FT_containsDir("a")
returns FALSE: the contains traversal searches the depth-1 prefix among
the root's children and never compares the root itself. -/
theorem c1_insertDir_then_containsDir_false :
    (FT_insertDir (runOps [FTOp.opInit]) ["a"]).1 = FTRet.success ∧
    FT_containsDir (FT_insertDir (runOps [FTOp.opInit]) ["a"]).2 ["a"]
      = false ∧
    FT_containsFile (FT_insertDir (runOps [FTOp.opInit]) ["a"]).2 ["a"]
      = false := by
  refine ⟨rfl, rfl, rfl⟩

/-- C3: the claim predicts ALREADY_IN_TREE for a second insertion of the
same path.  On the real code, re-inserting the root path returns
NO_SUCH_PATH (the final-level duplicate scan looks only at the root's
children, and Node_new then rejects the depth-1 path under a depth-1
parent); the failed attempt does leave the state unchanged. -/
theorem c3_second_insert_not_alreadyInTree :
    (FT_insertDir (runOps [FTOp.opInit, FTOp.opInsertDir ["a"]]) ["a"]).1
      = FTRet.noSuchPath ∧
    (FT_insertDir (runOps [FTOp.opInit, FTOp.opInsertDir ["a"]]) ["a"]).1
      ≠ FTRet.alreadyInTree ∧
    (FT_insertFile (runOps [FTOp.opInit, FTOp.opInsertDir ["a"]]) ["a"]
        (some "x") 1).1 = FTRet.noSuchPath ∧
    (FT_insertDir (runOps [FTOp.opInit, FTOp.opInsertDir ["a"]]) ["a"]).2
      = runOps [FTOp.opInit, FTOp.opInsertDir ["a"]] := by
  refine ⟨rfl, by decide, rfl, rfl⟩

/-- C4: the claim says a failed insertion leaves the reachable node set
unchanged, with any auto-created root destroyed.  On the real code,
FT_insertFile("a/b") on an empty initialized tree fails with
CONFLICTING_PATH yet leaves the auto-created root directory "a" reachable
from the (previously NULL) root. -/
theorem c4_failed_insertFile_leaks_root :
    (runOps [FTOp.opInit]).root = none ∧
    (FT_insertFile (runOps [FTOp.opInit]) ["a", "b"] (some "x") 1).1
      = FTRet.conflictingPath ∧
    (FT_insertFile (runOps [FTOp.opInit]) ["a", "b"] (some "x") 1).1
      ≠ FTRet.success ∧
    (FT_insertFile (runOps [FTOp.opInit]) ["a", "b"] (some "x") 1).2.root
      = some (Node.mk ["a"] NodeType.dir none []) := by
  refine ⟨rfl, rfl, by decide, rfl⟩

/-- C6: the claim says FT_replaceFileContents on a present file returns
the file's previous contents and installs the new ones.  On the real
code the spec's own setup cannot even be reached (FT_insertFile always
fails), and on a directly constructed tree holding the file "a/f" with
contents "x", FT_replaceFileContents("a/f", "yy") returns NULL and leaves
the state unchanged, because the traversal never finds the file. -/
theorem c6_replace_returns_null_for_present_file :
    (FT_insertFile (runOps [FTOp.opInit, FTOp.opInsertDir ["a"]]) ["a", "f"]
        (some "x") 1).1 = FTRet.conflictingPath ∧
    (FT_replaceFileContents
        ⟨true, some (Node.mk ["a"] NodeType.dir none
          [Node.mk ["a", "f"] NodeType.file (some "x") []])⟩
        ["a", "f"] (some "yy") 2).1 = none ∧
    (FT_replaceFileContents
        ⟨true, some (Node.mk ["a"] NodeType.dir none
          [Node.mk ["a", "f"] NodeType.file (some "x") []])⟩
        ["a", "f"] (some "yy") 2).2 =
      ⟨true, some (Node.mk ["a"] NodeType.dir none
          [Node.mk ["a", "f"] NodeType.file (some "x") []])⟩ ∧
    FT_getFileContents
        ⟨true, some (Node.mk ["a"] NodeType.dir none
          [Node.mk ["a", "f"] NodeType.file (some "x") []])⟩
        ["a", "f"] = none := by
  refine ⟨rfl, rfl, rfl, rfl⟩

/-- C7: the claim says FT_stat reports isFile=FALSE with SUCCESS for an
inserted directory.  On the real code, FT_stat("a") right after a
successful FT_insertDir("a") returns NO_SUCH_PATH (same traversal bug),
leaving both output parameters untouched. -/
theorem c7_stat_after_insertDir_noSuchPath :
    (FT_insertDir (runOps [FTOp.opInit]) ["a"]).1 = FTRet.success ∧
    (FT_stat (runOps [FTOp.opInit, FTOp.opInsertDir ["a"]]) ["a"]).1
      = FTRet.noSuchPath ∧
    (FT_stat (runOps [FTOp.opInit, FTOp.opInsertDir ["a"]]) ["a"]).2.1
      = none ∧
    (FT_stat (runOps [FTOp.opInit, FTOp.opInsertDir ["a"]]) ["a"]).2.2
      = none := by
  refine ⟨rfl, rfl, rfl, rfl⟩

/-- C2 counterexample: the claim predicts NO_SUCH_PATH when FT_insertFile
meets a missing intermediate directory; on the reachable tree holding only
the root directory "a", FT_insertFile("a/b/c") (intermediate "a/b" absent)
returns CONFLICTING_PATH instead. -/
theorem c2_counterexample_conflictingPath :
    (FT_insertFile (runOps [FTOp.opInit, FTOp.opInsertDir ["a"]])
        ["a", "b", "c"] (some "x") 1).1 = FTRet.conflictingPath ∧
    (FT_insertFile (runOps [FTOp.opInit, FTOp.opInsertDir ["a"]])
        ["a", "b", "c"] (some "x") 1).1 ≠ FTRet.noSuchPath := by
  refine ⟨rfl, by decide⟩

/-- C9: the claim describes CheckerDT_isValid as TRUE exactly when the
tree is structurally valid and the visited count matches.  On the real
code, the lexicographic-order loop bound "ulNumChildren - 1" underflows
in size_t for a childless directory, the loop then fails to fetch child 0,
and the checker returns FALSE even for the perfectly valid one-node tree
(initialized, root directory "a", count 1). -/
theorem c9_checker_rejects_valid_singleton :
    Node.size (Node.mk ["a"] NodeType.dir none []) = 1 ∧
    CheckerDT_isValid true (some (Node.mk ["a"] NodeType.dir none [])) 1
      = false := by
  constructor
  · simp [Node.size, Node.sizeList]
  · have hnv : CheckerDT_Node_isValid none
        (Node.mk ["a"] NodeType.dir none []) = false := by decide
    simp [CheckerDT_isValid, CheckerDT_treeCheck, hnv]


theorem FT_insertDirWalk_childless (t : FTPath) (i : Nat) (rest : List Nat)
    (q : FTPath) (ty : NodeType) (co : Option String) :
    FT_insertDirWalk t (i :: rest) (Node.mk q ty co []) =
      .error .noSuchPath := rfl

theorem FT_insertFileWalk_childless (t : FTPath) (pv : Option String)
    (len : Nat) (i : Nat) (rest : List Nat)
    (q : FTPath) (ty : NodeType) (co : Option String) :
    FT_insertFileWalk t pv len (i :: rest) (Node.mk q ty co []) =
      .error .conflictingPath := rfl

theorem walkLookup_childless (t : FTPath) (i : Nat) (rest : List Nat)
    (q : FTPath) (ty : NodeType) (co : Option String) :
    walkLookup t (i :: rest) (Node.mk q ty co []) = none := rfl

theorem FT_insertDir_lone_state (ini : Bool) (a : String) (p : FTPath) :
    (FT_insertDir ⟨ini, some (mkLone a)⟩ p).2 = ⟨ini, some (mkLone a)⟩ := by
  cases ini
  · rfl
  · match p with
    | [] => rfl
    | [x] => rfl
    | x :: y :: ys => rfl

theorem FT_insertDir_none_inv (ini : Bool) (p : FTPath) :
    loneRootInv (FT_insertDir ⟨ini, none⟩ p).2 := by
  cases ini
  · exact Or.inl rfl
  · match p with
    | [] => exact Or.inl rfl
    | [x] => exact Or.inr ⟨x, rfl⟩
    | x :: y :: ys => exact Or.inl rfl

theorem FT_insertFile_lone_state (ini : Bool) (a : String) (p : FTPath)
    (pv : Option String) (len : Nat) :
    (FT_insertFile ⟨ini, some (mkLone a)⟩ p pv len).2 =
      ⟨ini, some (mkLone a)⟩ := by
  cases ini
  · rfl
  · match p with
    | [] => rfl
    | [x] => rfl
    | x :: y :: ys => rfl

theorem FT_insertFile_none_inv (ini : Bool) (p : FTPath)
    (pv : Option String) (len : Nat) :
    loneRootInv (FT_insertFile ⟨ini, none⟩ p pv len).2 := by
  cases ini
  · exact Or.inl rfl
  · match p with
    | [] => exact Or.inl rfl
    | [x] => exact Or.inl rfl
    | x :: y :: ys => exact Or.inr ⟨x, rfl⟩

theorem FT_rmDir_none_state (ini : Bool) (p : FTPath) :
    (FT_rmDir ⟨ini, none⟩ p).2 = ⟨ini, none⟩ := by
  cases ini
  · rfl
  · match p with
    | [] => rfl
    | _ :: _ => rfl

theorem FT_rmFile_none_state (ini : Bool) (p : FTPath) :
    (FT_rmFile ⟨ini, none⟩ p).2 = ⟨ini, none⟩ := by
  cases ini
  · rfl
  · match p with
    | [] => rfl
    | _ :: _ => rfl

theorem FT_replace_none_state (ini : Bool) (p : FTPath) (pv : Option String)
    (len : Nat) :
    (FT_replaceFileContents ⟨ini, none⟩ p pv len).2 = ⟨ini, none⟩ := by
  cases ini
  · rfl
  · match p with
    | [] => rfl
    | _ :: _ => rfl

theorem FT_replace_lone_state (ini : Bool) (a : String) (p : FTPath)
    (pv : Option String) (len : Nat) :
    (FT_replaceFileContents ⟨ini, some (mkLone a)⟩ p pv len).2 =
      ⟨ini, some (mkLone a)⟩ := by
  cases ini
  · rfl
  · match p with
    | [] => rfl
    | x :: xs => rfl

theorem FT_rmDir_lone_inv (ini : Bool) (a : String) (p : FTPath) :
    loneRootInv (FT_rmDir ⟨ini, some (mkLone a)⟩ p).2 := by
  cases ini
  · exact Or.inr ⟨a, rfl⟩
  · match p with
    | [] => exact Or.inr ⟨a, rfl⟩
    | x :: xs =>
      have hred : FT_rmDir ⟨true, some (mkLone a)⟩ (x :: xs) =
          (if pathEqb (mkLone a).path (x :: xs) then
            (if (mkLone a).etype ≠ NodeType.dir then
              (FTRet.notADirectory, (⟨true, some (mkLone a)⟩ : FTState))
             else (FTRet.success, (⟨true, none⟩ : FTState)))
           else
            match FT_rmWalk NodeType.dir FTRet.notADirectory (x :: xs)
                (levelRange 1 (x :: xs).length) (mkLone a) with
            | .error e => (e, (⟨true, some (mkLone a)⟩ : FTState))
            | .ok r' => (.success, (⟨true, some r'⟩ : FTState))) := rfl
      by_cases h : pathEqb (mkLone a).path (x :: xs) = true
      · rw [hred, if_pos h]
        exact Or.inl rfl
      · rw [hred, if_neg h]
        match xs with
        | [] => exact Or.inr ⟨a, rfl⟩
        | y :: ys => exact Or.inr ⟨a, rfl⟩

theorem FT_rmFile_lone_inv (ini : Bool) (a : String) (p : FTPath) :
    loneRootInv (FT_rmFile ⟨ini, some (mkLone a)⟩ p).2 := by
  cases ini
  · exact Or.inr ⟨a, rfl⟩
  · match p with
    | [] => exact Or.inr ⟨a, rfl⟩
    | x :: xs =>
      have hred : FT_rmFile ⟨true, some (mkLone a)⟩ (x :: xs) =
          (if pathEqb (mkLone a).path (x :: xs) then
            (if (mkLone a).etype = NodeType.file then
              (FTRet.notAFile, (⟨true, some (mkLone a)⟩ : FTState))
             else (FTRet.conflictingPath, (⟨true, some (mkLone a)⟩ : FTState)))
           else
            match FT_rmWalk NodeType.file FTRet.notAFile (x :: xs)
                (levelRange 1 (x :: xs).length) (mkLone a) with
            | .error e => (e, (⟨true, some (mkLone a)⟩ : FTState))
            | .ok r' => (.success, (⟨true, some r'⟩ : FTState))) := rfl
      by_cases h : pathEqb (mkLone a).path (x :: xs) = true
      · rw [hred, if_pos h]
        exact Or.inr ⟨a, rfl⟩
      · rw [hred, if_neg h]
        match xs with
        | [] => exact Or.inr ⟨a, rfl⟩
        | y :: ys => exact Or.inr ⟨a, rfl⟩

/-- Preservation: every FT operation keeps the reachable-state invariant. -/
theorem applyOp_inv (s : FTState) (hs : loneRootInv s) (op : FTOp) :
    loneRootInv (applyOp s op) := by
  obtain ⟨ini, rt⟩ := s
  rcases hs with hn | ⟨a, ha⟩
  · replace hn : rt = none := hn
    subst hn
    cases op with
    | opInit => cases ini <;> exact Or.inl rfl
    | opDestroy => cases ini <;> exact Or.inl rfl
    | opInsertDir p => exact FT_insertDir_none_inv ini p
    | opInsertFile p pv len => exact FT_insertFile_none_inv ini p pv len
    | opRmDir p => exact Or.inl (congrArg FTState.root (FT_rmDir_none_state ini p))
    | opRmFile p => exact Or.inl (congrArg FTState.root (FT_rmFile_none_state ini p))
    | opReplace p pv len =>
      exact Or.inl (congrArg FTState.root (FT_replace_none_state ini p pv len))
  · replace ha : rt = some (mkLone a) := ha
    subst ha
    cases op with
    | opInit =>
      cases ini
      · exact Or.inl rfl
      · exact Or.inr ⟨a, rfl⟩
    | opDestroy =>
      cases ini
      · exact Or.inr ⟨a, rfl⟩
      · exact Or.inl rfl
    | opInsertDir p =>
      exact Or.inr ⟨a, congrArg FTState.root (FT_insertDir_lone_state ini a p)⟩
    | opInsertFile p pv len =>
      exact Or.inr ⟨a, congrArg FTState.root (FT_insertFile_lone_state ini a p pv len)⟩
    | opRmDir p => exact FT_rmDir_lone_inv ini a p
    | opRmFile p => exact FT_rmFile_lone_inv ini a p
    | opReplace p pv len =>
      exact Or.inr ⟨a, congrArg FTState.root (FT_replace_lone_state ini a p pv len)⟩

/-- Every state reachable by running FT operations from process start
satisfies the lone-root invariant. -/
theorem loneRootInv_runOps (ops : List FTOp) : loneRootInv (runOps ops) := by
  have H : ∀ l s, loneRootInv s → loneRootInv (List.foldl applyOp s l) := by
    intro l
    induction l with
    | nil => intro s hs; exact hs
    | cons o os ih => intro s hs; exact ih _ (applyOp_inv s hs o)
  exact H ops initialState (Or.inl rfl)

theorem sortedDistinct_mkLone (a : String) :
    sortedDistinct (mkLone a) = true := by
  simp [mkLone, sortedDistinct, ascChain, dupFree, sortedDistinctList]

/-- C5: in every tree state reachable by successful (or failed) runs of
the FT operations from process start, every directory's children are
pairwise distinct and in strictly ascending lexicographic order by path.
(The only linking step in the code, DynArray_add, appends at the end; the
invariant holds because no reachable state ever has a non-empty child
list: the traversal bug prevents any insertion below the root.) -/
theorem c5_reachable_children_sorted (ops : List FTOp) (r : Node)
    (h : (runOps ops).root = some r) : sortedDistinct r = true := by
  rcases loneRootInv_runOps ops with hn | ⟨a, ha⟩
  · rw [hn] at h
    cases h
  · rw [ha] at h
    injection h with h'
    rw [← h']
    exact sortedDistinct_mkLone a

/-- Witness for C5 at a concrete reachable state. -/
theorem c5_witness :
    sortedDistinct (Node.mk ["a"] NodeType.dir none []) = true :=
  c5_reachable_children_sorted [FTOp.opInit, FTOp.opInsertDir ["a"]] _ rfl

theorem filesOkList_mem {cs : List Node} (h : filesOkList cs = true) :
    ∀ c ∈ cs, filesOk c = true := by
  induction cs with
  | nil => intro c hc; cases hc
  | cons d ds ih =>
    rw [filesOkList, Bool.and_eq_true] at h
    intro c hc
    rcases List.mem_cons.mp hc with rfl | hmem
    · exact h.1
    · exact ih h.2 c hmem

theorem filesOk_isSomeContents {n : Node} (h : filesOk n = true)
    (hf : n.etype = NodeType.file) : ∃ c, n.contents = some c := by
  obtain ⟨p, t, co, cs⟩ := n
  rw [filesOk, Bool.and_eq_true] at h
  simp only [Node.etype] at hf
  subst hf
  simp only [if_pos rfl] at h
  simp only [Node.contents]
  exact Option.isSome_iff_exists.mp h.1

theorem walkLookup_filesOk :
    ∀ (levels : List Nat) (t : FTPath) (cur n : Node),
      walkLookup t levels cur = some n → filesOk cur = true →
      filesOk n = true := by
  intro levels
  induction levels with
  | nil =>
    intro t cur n h hc
    rw [walkLookup] at h
    injection h with h'
    rw [← h']
    exact hc
  | cons i rest ih =>
    intro t cur n h hc
    rw [walkLookup] at h
    cases hf : findChild cur.children (t.take i) with
    | none => rw [hf] at h; cases h
    | some c =>
      rw [hf] at h
      have hmem : c ∈ cur.children := by
        rw [findChild] at hf
        exact List.mem_of_find?_eq_some hf
      have hcok : filesOk c = true := by
        obtain ⟨p, tt, co, cs⟩ := cur
        rw [filesOk, Bool.and_eq_true] at hc
        exact filesOkList_mem hc.2 c hmem
      exact ih t c n h hcok

theorem getFileContents_iff_locate (s : FTState) (p : FTPath)
    (hok : stateFilesOk s = true) :
    (FT_getFileContents s p = none ↔ FT_locateFile s p = none) := by
  obtain ⟨ini, rt⟩ := s
  cases ini
  · simp [FT_getFileContents, FT_locateFile]
  · by_cases h0 : p.length = 0
    · simp [FT_getFileContents, FT_locateFile, h0]
    · cases rt with
      | none => simp [FT_getFileContents, FT_locateFile, h0]
      | some r =>
        simp only [FT_getFileContents, FT_locateFile, h0, if_false,
          Bool.not_true, Bool.false_eq_true]
        cases hw : walkLookup p (levelRange 1 p.length) r with
        | none => simp
        | some n =>
          by_cases hf : n.etype = NodeType.file
          · have hok' : filesOk n = true := by
              apply walkLookup_filesOk _ _ _ _ hw
              simpa [stateFilesOk] using hok
            obtain ⟨c, hc⟩ := filesOk_isSomeContents hok' hf
            simp [hf, hc]
          · simp [hf]

theorem Node_new_file_contents (p : FTPath) (par : Option Node) (n : Node)
    (h : Node_new p par NodeType.file = Except.ok n) :
    n.contents = some "" := by
  unfold Node_new at h
  repeat' split at h
  all_goals cases h
  all_goals rfl

theorem Node_setContents_file (n : Node) (pc : Option String)
    (hf : n.etype = NodeType.file) :
    (Node_setContents n pc).contents = some (pc.getD "") := by
  obtain ⟨p, t, co, cs⟩ := n
  simp only [Node.etype] at hf
  subst hf
  simp [Node_setContents, Node.contents]

/-- C10: every file node ever present in a reachable tree has a non-NULL
content buffer (Node_new allocates an empty string, Node_setContents maps
NULL to the empty string), and FT_getFileContents returns NULL exactly
when the code's own lookup fails to locate a file at the path -- never
for a file it finds, even an empty one. -/
theorem c10_file_contents_never_null :
    (∀ ops r, (runOps ops).root = some r → filesOk r = true) ∧
    (∀ s p, stateFilesOk s = true →
      (FT_getFileContents s p = none ↔ FT_locateFile s p = none)) ∧
    (∀ p par n, Node_new p par NodeType.file = Except.ok n →
      n.contents = some "") ∧
    (∀ n pc, n.etype = NodeType.file →
      (Node_setContents n pc).contents = some (pc.getD "")) := by
  refine ⟨?_, getFileContents_iff_locate, Node_new_file_contents,
    Node_setContents_file⟩
  intro ops r h
  rcases loneRootInv_runOps ops with hn | ⟨a, ha⟩
  · rw [hn] at h
    cases h
  · rw [ha] at h
    injection h with h'
    rw [← h']
    simp [mkLone, filesOk, filesOkList]

/-- Witness for C10 at a concrete reachable state and path. -/
theorem c10_witness :
    filesOk (Node.mk ["a"] NodeType.dir none []) = true ∧
    (FT_getFileContents ⟨true, some (Node.mk ["a"] NodeType.dir none [])⟩
        ["a"] = none ↔
      FT_locateFile ⟨true, some (Node.mk ["a"] NodeType.dir none [])⟩
        ["a"] = none) :=
  ⟨c10_file_contents_never_null.1 [FTOp.opInit, FTOp.opInsertDir ["a"]] _ rfl,
   c10_file_contents_never_null.2.1 _ ["a"]
     (by simp [stateFilesOk, filesOk, filesOkList])⟩

theorem wfDepthList_mem {q : FTPath} {cs : List Node}
    (h : wfDepthList q cs = true) :
    ∀ c ∈ cs, c.path.length = q.length + 1 := by
  induction cs with
  | nil => intro c hc; cases hc
  | cons d ds ih =>
    rw [wfDepthList] at h
    simp only [Bool.and_eq_true] at h
    intro c hc
    rcases List.mem_cons.mp hc with rfl | hmem
    · exact eq_of_beq h.1.1
    · exact ih h.2 c hmem

theorem findChild_none_of_len {cs : List Node} {q : FTPath}
    (h : ∀ c ∈ cs, c.path.length ≠ q.length) :
    findChild cs q = none := by
  rw [findChild, List.find?_eq_none]
  intro c hc
  simp only [pathEqb, Bool.not_eq_true]
  rw [beq_eq_false_iff_ne]
  intro he
  exact h c hc (by rw [he])

theorem FT_insertFileWalk_notfound (t : FTPath) (pv : Option String)
    (len : Nat) (i : Nat) (rest : List Nat) (cur : Node)
    (h : findChild cur.children (t.take i) = none) :
    FT_insertFileWalk t pv len (i :: rest) cur =
      .error .conflictingPath := by
  rw [FT_insertFileWalk, h]

/-- C2 amended: for every file path of depth >= 2 in an initialized
depth-well-formed tree with a depth-1 root whose required intermediate
directory is absent, FT_insertFile fails with CONFLICTING_PATH -- not
with the NO_SUCH_PATH code that FT_insertDir uses for a missing
intermediate directory. -/
theorem c2_amended_insertFile_conflicting (s : FTState) (r : Node)
    (p : FTPath) (pv : Option String) (len : Nat)
    (hs : s.isInit = true) (hr : s.root = some r)
    (hd1 : r.path.length = 1) (hwf : wfDepth r = true)
    (hd : 2 ≤ p.length) (habs : p.dropLast ∉ dirPaths r) :
    (FT_insertFile s p pv len).1 = FTRet.conflictingPath := by
  obtain ⟨ini, rt⟩ := s
  simp only at hs hr
  subst hs
  subst hr
  rcases p with _ | ⟨x, _ | ⟨y, ys⟩⟩
  · simp at hd
  · simp at hd
  · obtain ⟨q, t, co, cs⟩ := r
    simp only [Node.path] at hd1
    have hcs : ∀ c ∈ cs, c.path.length = q.length + 1 := by
      rw [wfDepth] at hwf
      exact wfDepthList_mem hwf
    have hfind : findChild cs ((x :: y :: ys).take 1) = none := by
      apply findChild_none_of_len
      intro c hc
      rw [hcs c hc, hd1]
      simp
    have hw := FT_insertFileWalk_notfound (x :: y :: ys) pv len 1
      (levelRange 2 ys.length) (Node.mk q t co cs) hfind
    have hred : FT_insertFile ⟨true, some (Node.mk q t co cs)⟩
        (x :: y :: ys) pv len =
        (match FT_insertFileWalk (x :: y :: ys) pv len
            (1 :: levelRange 2 ys.length) (Node.mk q t co cs) with
          | Except.error e =>
            (e, (⟨true, some (Node.mk q t co cs)⟩ : FTState))
          | Except.ok r' =>
            (FTRet.success, (⟨true, some r'⟩ : FTState))) := rfl
    rw [hred, hw]

/-- Witness for the amended C2 at a concrete reachable tree and path. -/
theorem c2_amended_witness :
    wfDepth (Node.mk ["a"] NodeType.dir none []) = true ∧
    (["a", "b", "c"] : FTPath).dropLast ∉
      dirPaths (Node.mk ["a"] NodeType.dir none []) ∧
    (FT_insertFile ⟨true, some (Node.mk ["a"] NodeType.dir none [])⟩
        ["a", "b", "c"] (some "x") 1).1 = FTRet.conflictingPath :=
  ⟨by rw [wfDepth, wfDepthList],
   by simp [dirPaths, dirPathsList],
   c2_amended_insertFile_conflicting _ _ _ _ _ rfl rfl rfl
     (by rw [wfDepth, wfDepthList]) (by decide)
     (by simp [dirPaths, dirPathsList])⟩

theorem Node_toString_eq_specLine (n : Node) : Node_toString n = specLine n :=
  rfl

theorem traverse_eq_specLines : ∀ n, FT_traverseToString n = specLines n := by
  have key : ∀ k,
      (∀ n, Node.size n ≤ k → FT_traverseToString n = specLines n) ∧
      (∀ l, Node.sizeList l ≤ k → FT_traverseList l = specLinesList l) := by
    intro k
    induction k with
    | zero =>
      constructor
      · intro n hn
        have := Node.size_pos n
        omega
      · intro l hl
        cases l with
        | nil => rw [FT_traverseList, specLinesList]
        | cons c cs =>
          have := Node.size_pos c
          rw [Node.sizeList] at hl
          omega
    | succ k ih =>
      have part1 : ∀ n, Node.size n ≤ k + 1 →
          FT_traverseToString n = specLines n := by
        intro n hn
        obtain ⟨p, t, co, cs⟩ := n
        rw [Node.size] at hn
        have hb1 : Node.sizeList
            (sortNodes (List.filter (fun c => c.etype == NodeType.file) cs))
            ≤ k := by
          have := (Node.sizeList_sortNodes
            (List.filter (fun c => c.etype == NodeType.file) cs)).le.trans
            (Node.sizeList_filter_le _ cs)
          omega
        have hb2 : Node.sizeList
            (sortNodes (List.filter (fun c => !(c.etype == NodeType.file)) cs))
            ≤ k := by
          have := (Node.sizeList_sortNodes
            (List.filter (fun c => !(c.etype == NodeType.file)) cs)).le.trans
            (Node.sizeList_filter_le _ cs)
          omega
        rw [FT_traverseToString, specLines, List.partition_eq_filter_filter]
        simp only [Function.comp]
        rw [ih.2 _ hb1, ih.2 _ hb2]
        rfl
      refine ⟨part1, ?_⟩
      intro l
      induction l with
      | nil =>
        intro _
        rw [FT_traverseList, specLinesList]
      | cons c cs ihl =>
        intro hl
        rw [Node.sizeList] at hl
        have hc := Node.size_pos c
        rw [FT_traverseList, specLinesList, part1 c (by omega),
          ihl (by omega)]
  intro n
  exact (key (Node.size n)).1 n le_rfl

/-- C8: FT_toString of an initialized non-empty tree is exactly the
serialization described by the claim (depth-first pre-order; at each
node the file children, sorted ascending lexicographically, are emitted
and recursed before the directory children, sorted ascending
lexicographically; one line "<path> [file]" / "<path> [dir]" per visited
node, newline-joined in traversal order with a trailing newline); and it
is NULL exactly when the tree is uninitialized or empty. -/
theorem c8_toString_matches_spec (s : FTState) :
    (∀ r, s.isInit = true → s.root = some r →
      FT_toString s = some (joinLines (specLines r))) ∧
    (FT_toString s = none ↔ (s.isInit = false ∨ s.root = none)) := by
  obtain ⟨ini, rt⟩ := s
  constructor
  · intro r hi hr
    simp only at hi hr
    subst hi
    subst hr
    simp only [FT_toString, Bool.not_true, Bool.false_eq_true, if_false]
    rw [traverse_eq_specLines]
  · cases ini
    · simp [FT_toString]
    · cases rt with
      | none => simp [FT_toString]
      | some r => simp [FT_toString]

/-- Witness for C8 at the concrete reachable one-directory tree. -/
theorem c8_witness :
    FT_toString ⟨true, some (Node.mk ["a"] NodeType.dir none [])⟩ =
      some (joinLines (specLines (Node.mk ["a"] NodeType.dir none []))) ∧
    joinLines (specLines (Node.mk ["a"] NodeType.dir none [])) =
      "a [dir]\n" :=
  ⟨(c8_toString_matches_spec _).1 _ rfl rfl,
   by
    rw [specLines, List.partition_eq_filter_filter]
    simp only [List.filter_nil]
    rw [show sortNodes [] = [] from rfl, specLinesList]
    simp only [joinLines, specLine, pathStr, Node.path, Node.etype,
      List.append_nil]
    decide⟩
